import Mathlib

/-!
Shallow embedding of `src/shasum.py` (AlbertWeichselbraun/shasum).

The script maintains a SHA1 digest and a last-verified timestamp per file
(stored as extended attributes), verifies file integrity, groups files with
identical digests into representative/duplicate sets, and emits a hard-link
deduplication shell script.

Modelling conventions:
- A `MetaDataEntry` carries the cached digest and timestamp exactly as the
  Python object does; `_write` (setfattr) keeps the persisted attributes in
  sync with the object fields, so the entry state stands for both.
- The Digest Engine `MetaDataEntry.sha` is abstracted as a function
  `sha : String → Option String` from path to digest; `none` models an
  OSError raised while opening or reading the file.  The Python code has no
  try/except anywhere, so a raised error is modelled with `Except`, whose
  `error` payload in the orchestrator loops records the entries left
  unprocessed when the exception escapes.
- Timestamps (`localtime()` / `struct_time`) are abstracted as `Nat` with
  the usual strict order, matching the strict tuple comparison
  `self.sha_date < min_date`.
- Python dicts are insertion-ordered association lists: updating an existing
  key keeps its position, a new key is appended.  Python sets are modelled
  as duplicate-free lists in insertion order (Python set iteration order is
  unspecified; none of the proved statements depends on it).
- `st_nlink` is read from the filesystem at grouping time
  (`stat(fobj.fname).st_nlink`), modelled by a function
  `nl : String → Nat` from path to hard-link count.
-/

/-- Insertion-ordered dictionary update, as in Python: an existing key is
overwritten in place, a fresh key is appended at the end. -/
def dictInsert {α : Type} (k : String) (v : α) : List (String × α) → List (String × α)
  | [] => [(k, v)]
  | (k1, v1) :: rest =>
      if k1 = k then (k, v) :: rest else (k1, v1) :: dictInsert k v rest

/-- Dictionary lookup: first binding of the key wins. -/
def dictLookup {α : Type} (k : String) : List (String × α) → Option α
  | [] => none
  | (k1, v1) :: rest => if k1 = k then some v1 else dictLookup k rest

/-- Python `set.add`: insert the element unless it is already present. -/
def setAdd {α : Type} [DecidableEq α] (e : α) (s : List α) : List α :=
  if e ∈ s then s else s ++ [e]

/-- The per-file metadata object of shasum.py: path, optional stored SHA1
digest, optional last-verified timestamp. -/
structure MetaDataEntry where
  fname : String
  sha_hash : Option String
  sha_date : Option Nat
deriving DecidableEq, Repr

/-- Python truthiness of an optional string: `None` and the empty string are
falsy, every other string is truthy.  Used for `if self.sha_hash` and
similar guards. -/
def strTruthy : Option String → Bool
  | none => false
  | some s => !(s == "")

/-- An OSError raised while opening or reading a file inside
`MetaDataEntry.sha`.  The spec calls this a ReadError. -/
inductive ReadError
  | readFailed
deriving DecidableEq, Repr

/-- Per-call classification of a `verify` run: `completed` (digest matched,
timestamp refreshed), `failed` (digest mismatch), `updated` (no stored
digest, so `update()` bootstrapped a first one). -/
inductive Outcome
  | completed
  | failed
  | updated
deriving DecidableEq, Repr

/-- `MetaDataEntry.update(force)`: if a digest is stored (truthy) and
`force` is false, return immediately; otherwise run the digest engine,
store the new digest and the current time (serialised via `_write`).
A read error propagates to the caller — the Python code has no handler. -/
def update (sha : String → Option String) (now : Nat) (force : Bool)
    (e : MetaDataEntry) : Except ReadError MetaDataEntry :=
  if strTruthy e.sha_hash && !force then
    Except.ok e
  else
    match sha e.fname with
    | none => Except.error ReadError.readFailed
    | some d => Except.ok { e with sha_hash := some d, sha_date := some now }

/-- `MetaDataEntry.verify()`: with no (truthy) stored digest, delegate to
`update()` with the default `force=False`.  Otherwise recompute the digest:
on a match refresh `sha_date` and report `completed`; on a mismatch leave
the entry untouched and report `failed`.  A read error propagates. -/
def verify (sha : String → Option String) (now : Nat)
    (e : MetaDataEntry) : Except ReadError (MetaDataEntry × Outcome) :=
  if strTruthy e.sha_hash = false then
    match update sha now false e with
    | Except.error r => Except.error r
    | Except.ok e2 => Except.ok (e2, Outcome.updated)
  else
    match sha e.fname with
    | none => Except.error ReadError.readFailed
    | some sha_content =>
        if (some sha_content == e.sha_hash) then
          Except.ok ({ e with sha_date := some now }, Outcome.completed)
        else
          Except.ok (e, Outcome.failed)

/-- The guard of `MetaDataEntry.verify_older`: true when no `sha_date` is
stored (a present `struct_time` is always truthy) or the stored date is
strictly below `min_date`. -/
def staleCheck (min_date : Nat) (e : MetaDataEntry) : Bool :=
  match e.sha_date with
  | none => true
  | some d => decide (d < min_date)

/-- `MetaDataEntry.verify_older(min_date)`: call `verify()` when the stored
date is absent or strictly older than `min_date`, otherwise do nothing.
The second component records whether and how `verify` classified the call
(`none` when `verify` was not invoked). -/
def verify_older (sha : String → Option String) (now : Nat) (min_date : Nat)
    (e : MetaDataEntry) : Except ReadError (MetaDataEntry × Option Outcome) :=
  if staleCheck min_date e then
    match verify sha now e with
    | Except.error r => Except.error r
    | Except.ok (e2, oc) => Except.ok (e2, some oc)
  else
    Except.ok (e, none)

/-- `FileSystemTree.update_files(forced)`: call `update` on every entry in
order.  An exception aborts the loop; the `error` payload is the list of
entries that were never processed because of the abort. -/
def update_files (sha : String → Option String) (now : Nat) (forced : Bool) :
    List MetaDataEntry → Except (List MetaDataEntry) (List MetaDataEntry)
  | [] => Except.ok []
  | e :: rest =>
      match update sha now forced e with
      | Except.error _ => Except.error rest
      | Except.ok e2 =>
          match update_files sha now forced rest with
          | Except.error r => Except.error r
          | Except.ok rs => Except.ok (e2 :: rs)

/-- `FileSystemTree.verify_files(min_age)`: compute the cutoff
`now − min_age` days and call `verify_older` on every entry in order.  As in
`update_files`, an exception aborts the loop and the `error` payload lists
the unprocessed entries. -/
def verify_files (sha : String → Option String) (now : Nat) (min_age : Nat) :
    List MetaDataEntry → Except (List MetaDataEntry) (List MetaDataEntry)
  | [] => Except.ok []
  | e :: rest =>
      match verify_older sha now (now - min_age) e with
      | Except.error _ => Except.error rest
      | Except.ok (e2, _) =>
          match verify_files sha now min_age rest with
          | Except.error r => Except.error r
          | Except.ok rs => Except.ok (e2 :: rs)

/-- The single-quote character (codepoint 39). -/
def squote : Char := Char.ofNat 39

/-- The backslash character (codepoint 92). -/
def bslash : Char := Char.ofNat 92

/-- Python `str.replace` specialised to a single-character pattern, as used
by `shellquote`: each occurrence of `pat` is replaced by `rep`. -/
def replaceChar (pat : Char) (rep : List Char) : List Char → List Char
  | [] => []
  | c :: rest =>
      if c = pat then rep ++ replaceChar pat rep rest
      else c :: replaceChar pat rep rest

/-- `shellquote(s)`: wrap the string in single quotes and replace each
embedded single quote by quote, backslash, quote, quote. -/
def shellquote (s : String) : String :=
  String.mk ([squote] ++
    replaceChar squote [squote, bslash, squote, squote] s.data ++ [squote])

/-- Accumulator of `FileSystemTree._get_duplicates`: the `known_hashes`
dictionary (digest → current representative) and the `duplicates`
dictionary (digest → set of duplicate entries). -/
abbrev GroupAcc :=
  List (String × MetaDataEntry) × List (String × List MetaDataEntry)

/-- One iteration of the `_get_duplicates` loop: skip an entry whose
`sha_hash` is `None`; if its digest is already a key of `known_hashes` and
its current link count is 1, add it to the duplicate set for that digest;
otherwise make it the representative for its digest. -/
def groupStep (nl : String → Nat) (acc : GroupAcc) (fobj : MetaDataEntry) :
    GroupAcc :=
  match fobj.sha_hash with
  | none => acc
  | some h =>
      if (dictLookup h acc.1).isSome = true ∧ nl fobj.fname = 1 then
        (acc.1, dictInsert h (setAdd fobj ((dictLookup h acc.2).getD [])) acc.2)
      else
        (dictInsert h fobj acc.1, acc.2)

/-- `FileSystemTree._get_duplicates`: fold `groupStep` over the file list
(the values of `self.files` in insertion order), starting from two empty
dictionaries. -/
def _get_duplicates (nl : String → Nat) (files : List MetaDataEntry) :
    GroupAcc :=
  files.foldl (groupStep nl) ([], [])

/-- `FileSystemTree.print_deduplication_sh`, as the list of printed lines:
the shebang line, then one `ln -f` line per duplicate, linking each
duplicate to the representative stored for its digest.  The Python
`known_hashes[h]` raises KeyError when the key is missing; that case is
unreachable (every `duplicates` key is a `known_hashes` key, proved below)
and is modelled as producing no lines. -/
def print_deduplication_sh (nl : String → Nat)
    (files : List MetaDataEntry) : List String :=
  let acc := _get_duplicates nl files
  "#!/bin/sh" ::
    acc.2.flatMap (fun p =>
      match dictLookup p.1 acc.1 with
      | some src =>
          p.2.map (fun d =>
            "ln -f " ++ shellquote src.fname ++ " " ++ shellquote d.fname)
      | none => [])

/-- The parsed command-line arguments: `--verify` carries an int (argparse
`default=180`), the four remaining flags are `store_true` booleans. -/
structure Args where
  compute : Bool
  sha : Bool
  verify : Option Int
  print_duplicates : Bool
  print_deduplication_sh : Bool
deriving DecidableEq, Repr

/-- `get_arguments()`: the `--verify` option has `default=180`, so the
parsed value is never `None` — it is the given age or 180.  The input
`verifyArg` is the value passed on the command line, if any. -/
def get_arguments (computeFlag shaFlag printDup printDedup : Bool)
    (verifyArg : Option Int) : Args :=
  { compute := computeFlag
    sha := shaFlag
    verify := some (verifyArg.getD 180)
    print_duplicates := printDup
    print_deduplication_sh := printDedup }

/-- The action selected by the `__main__` if/elif chain. -/
inductive Mode
  | updateFiles
  | shaSingle
  | verifyFiles (age : Int)
  | printDuplicates
  | printDedupSh
  | noOp
deriving DecidableEq, Repr

/-- The `__main__` dispatch: `args.compute`, then `args.sha`, then
`args.verify is not None`, then `args.print_duplicates`, then
`args.print_deduplication_sh`. -/
def mainDispatch (a : Args) : Mode :=
  if a.compute then Mode.updateFiles
  else if a.sha then Mode.shaSingle
  else if a.verify.isSome then Mode.verifyFiles (a.verify.getD 0)
  else if a.print_duplicates then Mode.printDuplicates
  else if a.print_deduplication_sh then Mode.printDedupSh
  else Mode.noOp

/-! Concrete inputs used in the theorems below. -/

/-- File a.txt with digest h0 and no stored timestamp. -/
def entryA : MetaDataEntry := { fname := "a.txt", sha_hash := some "h0", sha_date := none }

/-- File b.txt with digest h0 and no stored timestamp. -/
def entryB : MetaDataEntry := { fname := "b.txt", sha_hash := some "h0", sha_date := none }

/-- File c.txt with digest h0 and no stored timestamp. -/
def entryC : MetaDataEntry := { fname := "c.txt", sha_hash := some "h0", sha_date := none }

/-- A filesystem in which every file has link count 1. -/
def nlOne : String → Nat := fun _ => 1

/-- A filesystem in which b.txt has link count 2 and all other files 1. -/
def nlB2 : String → Nat := fun f => if f = "b.txt" then 2 else 1

/-- A filesystem in which a.txt has link count 1 and all other files 2. -/
def nlC10 : String → Nat := fun f => if f = "a.txt" then 1 else 2

/-- A digest engine for which bad.txt is unreadable and every other file
digests to d1. -/
def shaC2 : String → Option String :=
  fun f => if f = "bad.txt" then none else some "d1"

/-- Unhashed entry for the unreadable file bad.txt. -/
def entryBad : MetaDataEntry := { fname := "bad.txt", sha_hash := none, sha_date := none }

/-- Unhashed entry for the readable file good.txt. -/
def entryGood : MetaDataEntry := { fname := "good.txt", sha_hash := none, sha_date := none }

/-- Unhashed entry for the readable file good2.txt. -/
def entryGood2 : MetaDataEntry := { fname := "good2.txt", sha_hash := none, sha_date := none }

/-- A digest engine that digests every file to y. -/
def shaMismatch : String → Option String := fun _ => some "y"

/-- Entry with stored digest x and stored timestamp 5. -/
def entryHashed : MetaDataEntry := { fname := "m.txt", sha_hash := some "x", sha_date := some 5 }

/-- Entry with stored digest x and stored timestamp 10. -/
def entryRecent : MetaDataEntry := { fname := "r.txt", sha_hash := some "x", sha_date := some 10 }

/-- Discriminates a successful `Except` result from a raised exception. -/
def exceptIsOk {ε α : Type} : Except ε α → Bool
  | Except.ok _ => true
  | Except.error _ => false

/-! Helper lemmas about the dictionary and set operations. -/

/-- Looking up the key just inserted returns the inserted value. -/
theorem dictLookup_insert_self {α : Type} (k : String) (v : α)
    (d : List (String × α)) : dictLookup k (dictInsert k v d) = some v := by
  induction d with
  | nil => simp [dictInsert, dictLookup]
  | cons p rest ih =>
      obtain ⟨k1, v1⟩ := p
      by_cases hk : k1 = k
      · simp [dictInsert, hk, dictLookup]
      · simp [dictInsert, hk, dictLookup, ih]

/-- Inserting one key leaves lookups of other keys unchanged. -/
theorem dictLookup_insert_of_ne {α : Type} (k q : String) (v : α)
    (d : List (String × α)) (hne : q ≠ k) :
    dictLookup q (dictInsert k v d) = dictLookup q d := by
  have hkq : k ≠ q := Ne.symm hne
  induction d with
  | nil => simp [dictInsert, dictLookup, hkq]
  | cons p rest ih =>
      obtain ⟨k1, v1⟩ := p
      by_cases hk : k1 = k
      · subst hk
        simp [dictInsert, dictLookup, hkq]
      · simp [dictInsert, hk, dictLookup, ih]

/-- Insertion never removes a key: a key present before is present after. -/
theorem dictLookup_insert_isSome {α : Type} (k q : String) (v : α)
    (d : List (String × α)) (h : (dictLookup q d).isSome = true) :
    (dictLookup q (dictInsert k v d)).isSome = true := by
  by_cases hq : q = k
  · subst hq; simp [dictLookup_insert_self]
  · rw [dictLookup_insert_of_ne k q v d hq]; exact h

/-- Every pair of the updated dictionary is the new binding or an old pair. -/
theorem mem_dictInsert {α : Type} (k : String) (v : α) (d : List (String × α))
    (p : String × α) (hp : p ∈ dictInsert k v d) : p = (k, v) ∨ p ∈ d := by
  induction d with
  | nil => simpa [dictInsert] using hp
  | cons q rest ih =>
      obtain ⟨k1, v1⟩ := q
      by_cases hk : k1 = k
      · simp only [dictInsert, if_pos hk, List.mem_cons] at hp
        rcases hp with h | h
        · exact Or.inl h
        · exact Or.inr (List.mem_cons_of_mem _ h)
      · simp only [dictInsert, if_neg hk, List.mem_cons] at hp
        rcases hp with h | h
        · exact Or.inr (by simp [h])
        · rcases ih h with h2 | h2
          · exact Or.inl h2
          · exact Or.inr (List.mem_cons_of_mem _ h2)

/-- A successful lookup exhibits a pair of the dictionary. -/
theorem dictLookup_mem {α : Type} (k : String) (d : List (String × α)) (v : α)
    (h : dictLookup k d = some v) : (k, v) ∈ d := by
  induction d with
  | nil => simp [dictLookup] at h
  | cons p rest ih =>
      obtain ⟨k1, v1⟩ := p
      by_cases hk : k1 = k
      · simp only [dictLookup, if_pos hk] at h
        cases h
        subst hk
        exact List.mem_cons_self _ _
      · simp only [dictLookup, if_neg hk] at h
        exact List.mem_cons_of_mem _ (ih h)

/-- Membership after `setAdd`: the new element or an old member. -/
theorem mem_setAdd {α : Type} [DecidableEq α] (x e : α) (s : List α)
    (h : e ∈ setAdd x s) : e = x ∨ e ∈ s := by
  unfold setAdd at h
  split at h
  · exact Or.inr h
  · rcases List.mem_append.1 h with h2 | h2
    · exact Or.inr h2
    · exact Or.inl (by simpa using h2)

/-! Invariants of the duplicate grouper. -/

/-- The skip branch of the grouper loop: an entry whose digest is `None` is
ignored. -/
theorem groupStep_skip (nl : String → Nat) (acc : GroupAcc) (e : MetaDataEntry)
    (he : e.sha_hash = none) : groupStep nl acc e = acc := by
  unfold groupStep
  rw [he]

/-- The duplicate branch of the grouper loop: a digest already known,
together with link count 1, adds the entry to the duplicate set of that
digest and leaves the representatives unchanged. -/
theorem groupStep_dup (nl : String → Nat) (acc : GroupAcc) (e : MetaDataEntry)
    (h : String) (he : e.sha_hash = some h)
    (hc : (dictLookup h acc.1).isSome = true ∧ nl e.fname = 1) :
    groupStep nl acc e =
      (acc.1, dictInsert h (setAdd e ((dictLookup h acc.2).getD [])) acc.2) := by
  unfold groupStep
  rw [he]
  exact if_pos hc

/-- The representative branch of the grouper loop: an unseen digest, or a
link count other than 1, makes the entry the representative of its digest
and leaves the duplicate sets unchanged. -/
theorem groupStep_rep (nl : String → Nat) (acc : GroupAcc) (e : MetaDataEntry)
    (h : String) (he : e.sha_hash = some h)
    (hc : ¬ ((dictLookup h acc.1).isSome = true ∧ nl e.fname = 1)) :
    groupStep nl acc e = (dictInsert h e acc.1, acc.2) := by
  unfold groupStep
  rw [he]
  exact if_neg hc

/-- One `groupStep` preserves the invariant that every key of the
`duplicates` dictionary is also a key of `known_hashes`. -/
theorem groupStep_dupkeys (nl : String → Nat) (acc : GroupAcc)
    (e : MetaDataEntry)
    (hInv : ∀ p ∈ acc.2, (dictLookup p.1 acc.1).isSome = true) :
    ∀ p ∈ (groupStep nl acc e).2,
      (dictLookup p.1 (groupStep nl acc e).1).isSome = true := by
  intro p hp
  cases he : e.sha_hash with
  | none =>
      rw [groupStep_skip nl acc e he] at hp ⊢
      exact hInv p hp
  | some h =>
      by_cases hc : (dictLookup h acc.1).isSome = true ∧ nl e.fname = 1
      · rw [groupStep_dup nl acc e h he hc] at hp ⊢
        rcases mem_dictInsert _ _ _ p hp with hpe | hpd
        · rw [hpe]
          exact hc.1
        · exact hInv p hpd
      · rw [groupStep_rep nl acc e h he hc] at hp ⊢
        exact dictLookup_insert_isSome h p.1 e acc.1 (hInv p hp)

/-- Folding `groupStep` preserves the duplicates-keys-are-known invariant. -/
theorem foldl_dupkeys (nl : String → Nat) (files : List MetaDataEntry) :
    ∀ (acc : GroupAcc),
      (∀ p ∈ acc.2, (dictLookup p.1 acc.1).isSome = true) →
      ∀ p ∈ (files.foldl (groupStep nl) acc).2,
        (dictLookup p.1 (files.foldl (groupStep nl) acc).1).isSome = true := by
  induction files with
  | nil => intro acc hInv p hp; exact hInv p hp
  | cons x rest ih =>
      intro acc hInv
      simp only [List.foldl_cons]
      exact ih (groupStep nl acc x) (groupStep_dupkeys nl acc x hInv)

/-- In the result of `_get_duplicates`, every digest that owns a duplicate
set also owns a representative. -/
theorem dups_key_known (nl : String → Nat) (files : List MetaDataEntry) :
    ∀ p ∈ (_get_duplicates nl files).2,
      (dictLookup p.1 (_get_duplicates nl files).1).isSome = true := by
  exact foldl_dupkeys nl files ([], []) (by intro p hp; simp at hp)

/-- Origin of the grouper output: a representative either was already one in
the starting accumulator or is a processed entry carrying that digest, and a
member of a duplicate set either was already one or is a processed entry
with link count 1 carrying that digest. -/
theorem grouper_origin (nl : String → Nat) (files : List MetaDataEntry) :
    ∀ (acc : GroupAcc),
      (∀ (h : String) (r : MetaDataEntry),
          dictLookup h (files.foldl (groupStep nl) acc).1 = some r →
          dictLookup h acc.1 = some r ∨ (r ∈ files ∧ r.sha_hash = some h)) ∧
      (∀ (h : String) (s : List MetaDataEntry) (e : MetaDataEntry),
          dictLookup h (files.foldl (groupStep nl) acc).2 = some s → e ∈ s →
          (∃ s0, dictLookup h acc.2 = some s0 ∧ e ∈ s0) ∨
            (e ∈ files ∧ nl e.fname = 1 ∧ e.sha_hash = some h)) := by
  induction files with
  | nil =>
      intro acc
      constructor
      · intro h r hr
        exact Or.inl hr
      · intro h s e hs he
        exact Or.inl ⟨s, hs, he⟩
  | cons x rest ih =>
      intro acc
      simp only [List.foldl_cons]
      constructor
      · intro h r hr
        rcases (ih (groupStep nl acc x)).1 h r hr with hcase | hcase
        · cases hx : x.sha_hash with
          | none =>
              rw [groupStep_skip nl acc x hx] at hcase
              exact Or.inl hcase
          | some h0 =>
              by_cases hc : (dictLookup h0 acc.1).isSome = true ∧ nl x.fname = 1
              · rw [groupStep_dup nl acc x h0 hx hc] at hcase
                exact Or.inl hcase
              · rw [groupStep_rep nl acc x h0 hx hc] at hcase
                by_cases hh : h = h0
                · subst hh
                  rw [show ((dictInsert h x acc.1, acc.2) :
                        GroupAcc).1 = dictInsert h x acc.1 from rfl,
                      dictLookup_insert_self] at hcase
                  cases hcase
                  exact Or.inr ⟨List.mem_cons_self _ _, hx⟩
                · rw [show ((dictInsert h0 x acc.1, acc.2) :
                        GroupAcc).1 = dictInsert h0 x acc.1 from rfl,
                      dictLookup_insert_of_ne h0 h x acc.1 hh] at hcase
                  exact Or.inl hcase
        · exact Or.inr ⟨List.mem_cons_of_mem _ hcase.1, hcase.2⟩
      · intro h s e hs he
        rcases (ih (groupStep nl acc x)).2 h s e hs he with hcase | hcase
        · obtain ⟨s0, hs0, hes0⟩ := hcase
          cases hx : x.sha_hash with
          | none =>
              rw [groupStep_skip nl acc x hx] at hs0
              exact Or.inl ⟨s0, hs0, hes0⟩
          | some h0 =>
              by_cases hc : (dictLookup h0 acc.1).isSome = true ∧ nl x.fname = 1
              · rw [groupStep_dup nl acc x h0 hx hc] at hs0
                by_cases hh : h = h0
                · subst hh
                  rw [show ((acc.1, dictInsert h
                        (setAdd x ((dictLookup h acc.2).getD [])) acc.2) :
                        GroupAcc).2 = dictInsert h
                        (setAdd x ((dictLookup h acc.2).getD [])) acc.2 from rfl,
                      dictLookup_insert_self] at hs0
                  cases hs0
                  rcases mem_setAdd x e _ hes0 with hex | heold
                  · subst hex
                    exact Or.inr ⟨List.mem_cons_self _ _, hc.2, hx⟩
                  · cases hold : dictLookup h acc.2 with
                    | none =>
                        rw [hold] at heold
                        simp at heold
                    | some s1 =>
                        rw [hold] at heold
                        exact Or.inl ⟨s1, rfl, heold⟩
                · rw [show ((acc.1, dictInsert h0
                        (setAdd x ((dictLookup h0 acc.2).getD [])) acc.2) :
                        GroupAcc).2 = dictInsert h0
                        (setAdd x ((dictLookup h0 acc.2).getD [])) acc.2 from rfl,
                      dictLookup_insert_of_ne h0 h _ acc.2 hh] at hs0
                  exact Or.inl ⟨s0, hs0, hes0⟩
              · rw [groupStep_rep nl acc x h0 hx hc] at hs0
                exact Or.inl ⟨s0, hs0, hes0⟩
        · exact Or.inr ⟨List.mem_cons_of_mem _ hcase.1, hcase.2.1, hcase.2.2⟩

/-- The `ln -f` line emitted for a representative and one duplicate. -/
def lnLine (src d : MetaDataEntry) : String :=
  "ln -f " ++ shellquote src.fname ++ " " ++ shellquote d.fname

/-- The per-group line emitter of `print_deduplication_sh`. -/
def lnLinesFor (known : List (String × MetaDataEntry))
    (p : String × List MetaDataEntry) : List String :=
  match dictLookup p.1 known with
  | some src => p.2.map (fun d => lnLine src d)
  | none => []

/-- The emitted script is the shebang line followed by the flattened
per-group `ln` lines. -/
theorem print_deduplication_sh_eq (nl : String → Nat)
    (files : List MetaDataEntry) :
    print_deduplication_sh nl files =
      "#!/bin/sh" ::
        (_get_duplicates nl files).2.flatMap
          (lnLinesFor (_get_duplicates nl files).1) := by
  rfl

/-- When every duplicates key has a representative, the script emits exactly
one line per member of a duplicate set. -/
theorem lnLines_length (known : List (String × MetaDataEntry)) :
    ∀ (dups : List (String × List MetaDataEntry)),
      (∀ p ∈ dups, (dictLookup p.1 known).isSome = true) →
      (dups.flatMap (lnLinesFor known)).length =
        (dups.map (fun p => p.2.length)).sum := by
  intro dups
  induction dups with
  | nil => intro _; simp
  | cons q rest ih =>
      intro hk
      have hq := hk q (List.mem_cons_self _ _)
      rcases Option.isSome_iff_exists.1 hq with ⟨src, hsrc⟩
      simp only [List.flatMap_cons, List.map_cons, List.sum_cons,
        List.length_append]
      rw [ih (fun p hp => hk p (List.mem_cons_of_mem _ hp))]
      unfold lnLinesFor
      rw [hsrc]
      simp

/-! Claims. -/

/-- C1: processing entries in input order and skipping entries with no
digest, the grouper adds an entry to the duplicate set for its digest
exactly when that digest is already a key of the representative map and the
link count equals 1, and otherwise sets or overwrites the representative
for that digest to the current entry; for three files A, B, C of identical
content with link count 1 processed in order A, B, C, the representative is
A and the duplicates are B and C. -/
theorem claim_C1 :
    (∀ (nl : String → Nat) (acc : GroupAcc) (e : MetaDataEntry) (h : String),
        e.sha_hash = some h →
        (((dictLookup h acc.1).isSome = true ∧ nl e.fname = 1) →
          groupStep nl acc e =
            (acc.1,
              dictInsert h (setAdd e ((dictLookup h acc.2).getD [])) acc.2)) ∧
        (¬ ((dictLookup h acc.1).isSome = true ∧ nl e.fname = 1) →
          groupStep nl acc e = (dictInsert h e acc.1, acc.2))) ∧
    (∀ (nl : String → Nat) (acc : GroupAcc) (e : MetaDataEntry),
        e.sha_hash = none → groupStep nl acc e = acc) ∧
    _get_duplicates nlOne [entryA, entryB, entryC] =
      ([("h0", entryA)], [("h0", [entryB, entryC])]) := by
  refine ⟨?_, ?_, by decide⟩
  · intro nl acc e h he
    exact ⟨groupStep_dup nl acc e h he, groupStep_rep nl acc e h he⟩
  · intro nl acc e he
    exact groupStep_skip nl acc e he

/-- Witness for C1 at a concrete input: with A already representative of
h0, processing B (link count 1) files B as a duplicate of h0. -/
theorem claim_C1_witness :
    groupStep nlOne ([("h0", entryA)], []) entryB =
      ([("h0", entryA)], [("h0", [entryB])]) :=
  ((claim_C1.1 nlOne ([("h0", entryA)], []) entryB "h0" rfl).1
    (by decide)).trans (by decide)

/-- C3: when a stored digest exists and the recomputed digest differs, the
verify outcome is failed and the entry (stored digest and timestamp) is
returned unchanged — no store write happens on the mismatch branch. -/
theorem claim_C3 :
    ∀ (sha : String → Option String) (now : Nat) (e : MetaDataEntry)
      (d : String),
      strTruthy e.sha_hash = true → sha e.fname = some d →
      some d ≠ e.sha_hash →
      verify sha now e = Except.ok (e, Outcome.failed) := by
  intro sha now e d ht hd hne
  unfold verify
  rw [ht]
  simp only [Bool.true_eq_false, if_false, hd]
  rw [if_neg (by simpa using hne)]

/-- Witness for C3 at a concrete input: stored digest x, recomputed digest
y, outcome failed with the entry unchanged. -/
theorem claim_C3_witness :
    verify shaMismatch 9 entryHashed = Except.ok (entryHashed, Outcome.failed) :=
  claim_C3 shaMismatch 9 entryHashed "y" (by decide) rfl (by decide)

/-- C4: `verify_older` invokes `verify` iff the stored timestamp is absent
or strictly older than the cutoff, and otherwise is a no-op that returns
the entry unchanged. -/
theorem claim_C4 :
    ∀ (sha : String → Option String) (now cutoff : Nat) (e : MetaDataEntry),
      (staleCheck cutoff e = true ↔
        (e.sha_date = none ∨ ∃ d, e.sha_date = some d ∧ d < cutoff)) ∧
      (staleCheck cutoff e = true →
        verify_older sha now cutoff e =
          (match verify sha now e with
           | Except.error r => Except.error r
           | Except.ok (e2, oc) => Except.ok (e2, some oc))) ∧
      (staleCheck cutoff e = false →
        verify_older sha now cutoff e = Except.ok (e, none)) := by
  intro sha now cutoff e
  refine ⟨?_, ?_, ?_⟩
  · unfold staleCheck
    cases hd : e.sha_date with
    | none => simp
    | some d => simp
  · intro hstale
    unfold verify_older
    rw [hstale]
    simp
  · intro hstale
    unfold verify_older
    rw [hstale]
    simp

/-- Witness for C4 at a concrete input: with timestamp 10 and cutoff 7 the
entry is fresh, so `verify_older` is a no-op. -/
theorem claim_C4_witness :
    verify_older shaMismatch 12 7 entryRecent = Except.ok (entryRecent, none) :=
  (claim_C4 shaMismatch 12 7 entryRecent).2.2 (by decide)

/-- C5: on an entry with a stored (truthy) digest, `update` without force
is a successful no-op for every digest engine: no digest is computed and
the entry is returned unchanged. -/
theorem claim_C5 :
    ∀ (sha : String → Option String) (now : Nat) (e : MetaDataEntry),
      strTruthy e.sha_hash = true →
      update sha now false e = Except.ok e := by
  intro sha now e ht
  unfold update
  rw [ht]
  simp

/-- Witness for C5 at a concrete input: the hashed entry is returned
unchanged even though the digest engine would report a different digest. -/
theorem claim_C5_witness :
    update shaMismatch 3 false entryHashed = Except.ok entryHashed :=
  claim_C5 shaMismatch 3 entryHashed (by decide)

/-- C2 as stated is false: the claim says a ReadError during compute is
recorded per entry and the orchestrator continues, so every run of
`update_files` would end normally.  With bad.txt unreadable, the run
raises instead. -/
theorem claim_C2_counterexample :
    ¬ ∀ (sha : String → Option String) (now : Nat) (forced : Bool)
        (l : List MetaDataEntry),
        exceptIsOk (update_files sha now forced l) = true := by
  intro hall
  exact absurd (hall shaC2 0 false [entryBad, entryGood]) (by decide)

/-- C2 amended: a ReadError raised while digesting propagates out of the
orchestrator loops uncaught — once all entries before the failing one
succeed, `update_files` and `verify_files` abort at the failing entry and
the entries after it are never processed. -/
theorem claim_C2_amended :
    (∀ (sha : String → Option String) (now : Nat) (forced : Bool)
        (l1 l2 : List MetaDataEntry) (e : MetaDataEntry),
        (∀ x ∈ l1, ∃ y, update sha now forced x = Except.ok y) →
        update sha now forced e = Except.error ReadError.readFailed →
        update_files sha now forced (l1 ++ e :: l2) = Except.error l2) ∧
    (∀ (sha : String → Option String) (now min_age : Nat)
        (l1 l2 : List MetaDataEntry) (e : MetaDataEntry),
        (∀ x ∈ l1, ∃ y, verify_older sha now (now - min_age) x = Except.ok y) →
        verify_older sha now (now - min_age) e =
          Except.error ReadError.readFailed →
        verify_files sha now min_age (l1 ++ e :: l2) = Except.error l2) := by
  constructor
  · intro sha now forced l1
    induction l1 with
    | nil =>
        intro l2 e _ he
        simp only [List.nil_append]
        unfold update_files
        rw [he]
    | cons x rest ih =>
        intro l2 e hok he
        obtain ⟨y, hy⟩ := hok x (List.mem_cons_self _ _)
        simp only [List.cons_append]
        unfold update_files
        rw [hy, ih l2 e (fun z hz => hok z (List.mem_cons_of_mem _ hz)) he]
  · intro sha now min_age l1
    induction l1 with
    | nil =>
        intro l2 e _ he
        simp only [List.nil_append]
        unfold verify_files
        rw [he]
    | cons x rest ih =>
        intro l2 e hok he
        obtain ⟨y, hy⟩ := hok x (List.mem_cons_self _ _)
        simp only [List.cons_append]
        unfold verify_files
        rw [hy, ih l2 e (fun z hz => hok z (List.mem_cons_of_mem _ hz)) he]

/-- Witness for the amended C2 at a concrete input: good.txt digests fine,
bad.txt is unreadable, so the run aborts and good2.txt is left
unprocessed. -/
theorem claim_C2_amended_witness :
    update_files shaC2 0 false ([entryGood] ++ entryBad :: [entryGood2]) =
      Except.error [entryGood2] :=
  claim_C2_amended.1 shaC2 0 false [entryGood] [entryGood2] entryBad
    (by
      intro x hx
      rw [List.mem_singleton.1 hx]
      exact ⟨{ fname := "good.txt", sha_hash := some "d1", sha_date := some 0 },
        rfl⟩)
    rfl

/-- C6: an entry is only ever placed in a duplicate set when its own link
count is exactly 1 and its digest was seen before — in particular it is one
of the processed entries, its digest keys the set it sits in, and that
digest also has a representative drawn from the processed entries. -/
theorem claim_C6 :
    ∀ (nl : String → Nat) (files : List MetaDataEntry) (h : String)
      (s : List MetaDataEntry) (e : MetaDataEntry),
      dictLookup h (_get_duplicates nl files).2 = some s → e ∈ s →
      nl e.fname = 1 ∧ e.sha_hash = some h ∧ e ∈ files ∧
      ∃ r, dictLookup h (_get_duplicates nl files).1 = some r ∧
        r ∈ files ∧ r.sha_hash = some h := by
  intro nl files h s e hs he
  rcases (grouper_origin nl files ([], [])).2 h s e hs he with hcase | hcase
  · obtain ⟨s0, hs0, _⟩ := hcase
    simp [dictLookup] at hs0
  · obtain ⟨hef, hnl, hsh⟩ := hcase
    refine ⟨hnl, hsh, hef, ?_⟩
    have hk : (dictLookup h (_get_duplicates nl files).1).isSome = true :=
      dups_key_known nl files (h, s) (dictLookup_mem h _ s hs)
    rcases Option.isSome_iff_exists.1 hk with ⟨r, hr⟩
    rcases (grouper_origin nl files ([], [])).1 h r hr with hrc | hrc
    · simp [dictLookup] at hrc
    · exact ⟨r, hr, hrc.1, hrc.2⟩

/-- Witness for C6 at a concrete input: in the A, B, C run with all link
counts 1, B sits in the duplicate set of h0, so the theorem reports link
count 1, digest h0, membership in the input, and representative A. -/
theorem claim_C6_witness :
    nlOne entryB.fname = 1 ∧ entryB.sha_hash = some "h0" ∧
      entryB ∈ [entryA, entryB, entryC] ∧
      ∃ r, dictLookup "h0" (_get_duplicates nlOne [entryA, entryB, entryC]).1 =
          some r ∧ r ∈ [entryA, entryB, entryC] ∧ r.sha_hash = some "h0" :=
  claim_C6 nlOne [entryA, entryB, entryC] "h0" [entryB, entryC] entryB
    (by decide) (by decide)

/-- C7: a later entry whose digest is already known but whose link count is
not 1 supplants the current representative; in the A, B, C run where B has
link count 2, the representative of h0 becomes B and C is grouped under B —
the emitted script links C against B, not A. -/
theorem claim_C7 :
    (∀ (nl : String → Nat) (acc : GroupAcc) (e : MetaDataEntry) (h : String),
        e.sha_hash = some h → (dictLookup h acc.1).isSome = true →
        nl e.fname ≠ 1 →
        groupStep nl acc e = (dictInsert h e acc.1, acc.2)) ∧
    _get_duplicates nlB2 [entryA, entryB, entryC] =
      ([("h0", entryB)], [("h0", [entryC])]) ∧
    print_deduplication_sh nlB2 [entryA, entryB, entryC] =
      ["#!/bin/sh", lnLine entryB entryC] := by
  refine ⟨?_, by decide, by decide⟩
  intro nl acc e h he hseen hnl
  exact groupStep_rep nl acc e h he (by
    intro hc
    exact hnl hc.2)

/-- Witness for C7 at a concrete input: with A the representative of h0,
the already-linked B (link count 2) supplants A as representative. -/
theorem claim_C7_witness :
    groupStep nlB2 ([("h0", entryA)], []) entryB = ([("h0", entryB)], []) :=
  (claim_C7.1 nlB2 ([("h0", entryA)], []) entryB "h0" rfl (by decide)
    (by decide)).trans (by decide)

/-- C8: shellquote wraps a path in single quotes and replaces each embedded
single quote by quote-backslash-quote-quote (so it is a file.txt with an
apostrophe quotes as expected), and the emitted script is the line
#!/bin/sh followed by exactly one ln -f line per duplicate entry, each line
quoting the representative and the duplicate. -/
theorem claim_C8 :
    shellquote ("it" ++ String.mk [squote] ++ "s a file.txt") =
      String.mk ([squote] ++ "it".data ++ [squote, bslash, squote, squote] ++
        "s a file.txt".data ++ [squote]) ∧
    (∀ (nl : String → Nat) (files : List MetaDataEntry),
      ∃ rest, print_deduplication_sh nl files = "#!/bin/sh" :: rest ∧
        rest.length =
          ((_get_duplicates nl files).2.map (fun p => p.2.length)).sum ∧
        ∀ line ∈ rest, ∃ p src d,
          p ∈ (_get_duplicates nl files).2 ∧
          dictLookup p.1 (_get_duplicates nl files).1 = some src ∧
          d ∈ p.2 ∧ line = lnLine src d) := by
  refine ⟨by decide, ?_⟩
  intro nl files
  refine ⟨(_get_duplicates nl files).2.flatMap
      (lnLinesFor (_get_duplicates nl files).1),
    print_deduplication_sh_eq nl files, ?_, ?_⟩
  · exact lnLines_length _ _ (dups_key_known nl files)
  · intro line hline
    rcases List.mem_flatMap.1 hline with ⟨p, hp, hlp⟩
    have hk := dups_key_known nl files p hp
    rcases Option.isSome_iff_exists.1 hk with ⟨src, hsrc⟩
    unfold lnLinesFor at hlp
    rw [hsrc] at hlp
    rcases List.mem_map.1 hlp with ⟨d, hd, hld⟩
    exact ⟨p, src, d, hp, hsrc, hd, hld.symm⟩

/-- Witness for C8 at a concrete input: the single script line of the
B-representative run is an ln line for some representative and duplicate
drawn from the grouper output. -/
theorem claim_C8_witness :
    ∃ p src d, p ∈ (_get_duplicates nlB2 [entryA, entryB, entryC]).2 ∧
      dictLookup p.1 (_get_duplicates nlB2 [entryA, entryB, entryC]).1 =
        some src ∧ d ∈ p.2 ∧ lnLine entryB entryC = lnLine src d := by
  obtain ⟨rest, hr, hlen, hmem⟩ := claim_C8.2 nlB2 [entryA, entryB, entryC]
  have h2 : print_deduplication_sh nlB2 [entryA, entryB, entryC] =
      ["#!/bin/sh", lnLine entryB entryC] := by decide
  rw [h2] at hr
  injection hr with h3 h4
  exact hmem (lnLine entryB entryC) (by rw [← h4]; exact List.mem_singleton_self _)

/-- C9 is right about the intent but the code is wrong: because --verify
has default 180, the parsed verify value is never None, so the main
dispatch runs a verification pass whenever compute and sha are not given;
the duplicate-report and dedup-script branches are unreachable for every
argument combination. -/
theorem claim_C9_bug :
    mainDispatch (get_arguments false false true false none) =
      Mode.verifyFiles 180 ∧
    mainDispatch (get_arguments false false false true none) =
      Mode.verifyFiles 180 ∧
    ∀ (c s pd pds : Bool) (v : Option Int),
      mainDispatch (get_arguments c s pd pds v) ≠ Mode.printDuplicates ∧
      mainDispatch (get_arguments c s pd pds v) ≠ Mode.printDedupSh := by
  refine ⟨by decide, by decide, ?_⟩
  intro c s pd pds v
  cases c <;> cases s <;> simp [mainDispatch, get_arguments]

/-- C10: there are inputs where a digest-bearing entry with link count 1
ends up in neither output: A becomes representative of h0, is supplanted by
the already-linked B, and no duplicate set mentions A, so the dedup script
has no ln line at all and A is never hard-linked. -/
theorem claim_C10 :
    (∀ (h : String) (r : MetaDataEntry),
        dictLookup h (_get_duplicates nlC10 [entryA, entryB]).1 = some r →
        r ≠ entryA) ∧
    (∀ (h : String) (s : List MetaDataEntry),
        dictLookup h (_get_duplicates nlC10 [entryA, entryB]).2 = some s →
        entryA ∉ s) ∧
    print_deduplication_sh nlC10 [entryA, entryB] = ["#!/bin/sh"] := by
  have hgd : _get_duplicates nlC10 [entryA, entryB] =
      ([("h0", entryB)], []) := by decide
  refine ⟨?_, ?_, by decide⟩
  · intro h r hr
    rw [hgd] at hr
    simp only [dictLookup] at hr
    split at hr
    · injection hr with hr2
      rw [← hr2]
      decide
    · exact Option.noConfusion hr
  · intro h s hs
    rw [hgd] at hs
    exact Option.noConfusion hs

/-- Witness for C10 at a concrete input: the representative stored for h0
is B, not the vanished A. -/
theorem claim_C10_witness : entryB ≠ entryA :=
  claim_C10.1 "h0" entryB (by decide)
